import Mathlib

/-!
Verification of the `money` package (fixed-point monetary values with
process-wide decimal scaling, overflow-checked arithmetic and locale-aware
formatting).

The Go source is shallowly embedded as follows:

* `int64` values are modelled as `Int`; where the Go code can wrap
  (two's-complement overflow of `+`, `-`, `*`) the wrap is made explicit
  with `wrap64`, and bit-level tests (`^`, `&`, `&^`, sign test) are
  modelled on the 64-bit two's-complement bit pattern `toBits`.
* the process-wide mutable scale (`DP`/`DPf`) is passed explicitly as an
  argument `dp` and returned where a function updates it;
* `panic` is modelled as an error result produced before any state
  update, so the pre-panic state is returned unchanged alongside the
  error (`Int × Option Err`, `Money × Option Err`);
* the `float64` intermediates of `Div`/`Setf` are modelled over `ℚ`;
  concrete theorems about them are stated only at inputs where every
  `float64` intermediate is exactly representable (or where the exact
  and the rounded intermediate lead to the same rounding decision,
  which is then noted at the theorem);
* the external `currency` and `locale` directories (not part of this
  package) are abstracted as lookup functions returning `Option` of a
  record holding exactly the fields the package reads.
-/

namespace I18n

/-- Error values of the package: `ErrMoneyOverflow`, `ErrMoneyDivideByZero`
and `ErrMoneyDecimalPlacesTooLarge`.  Note that the source raises
`ErrMoneyDivideByZero` for a negative decimal-place count (the spec calls
this failure `InvalidScaleError`) and `ErrMoneyDecimalPlacesTooLarge` for a
count above 18 (the spec's `ScaleTooLargeError`). -/
inductive Err where
  | moneyOverflow
  | moneyDivideByZero
  | moneyDecimalPlacesTooLarge
deriving DecidableEq

/-- The Money struct: scaled amount `M` (an `int64`) and currency code `C`. -/
structure Money where
  M : Int
  C : String
deriving DecidableEq

/-- 2^63, the magnitude of the smallest `int64`. -/
def two63 : Int := 9223372036854775808

/-- 2^64. -/
def two64 : Int := 18446744073709551616

/-- `x` is representable as an `int64`. -/
def inRange (x : Int) : Prop := -two63 ≤ x ∧ x < two63

instance (x : Int) : Decidable (inRange x) := by unfold inRange; infer_instance

/-- Two's-complement wrap-around of Go `int64` arithmetic. -/
def wrap64 (x : Int) : Int := (x + two63) % two64 - two63

/-- The 64-bit two's-complement bit pattern of an `int64` value, as a `Nat`
(so that Go's bitwise `^`, `&`, `&^` become `Nat` bitwise operations). -/
def toBits (x : Int) : Nat := (x % two64).toNat

/-- Go `x &^ y` complements `y` within 64 bits before the `&`. -/
def not64 (u : Nat) : Nat := u ^^^ (18446744073709551615 : Nat)

/-- The constant `MAXDEC = 18`. -/
def MAXDEC : Int := 18

/-- `newDecimal(d)`: panics with `ErrMoneyDivideByZero` when `d < 0` and with
`ErrMoneyDecimalPlacesTooLarge` when `d > MAXDEC`; otherwise the loop
`newDec := 0; if d > 0 { newDec = 1; d times newDec *= 10 }` computes
`10^d` for `d > 0` and leaves `0` for `d = 0` (all values fit in `int64`
since `10^18 < 2^63`, so no wrap occurs in the loop). -/
def newDecimal (d : Int) : Except Err Int :=
  if d < 0 then .error .moneyDivideByZero
  else if d > MAXDEC then .error .moneyDecimalPlacesTooLarge
  else if d > 0 then .ok (10 ^ d.toNat)
  else .ok 0

/-- `SetDecimal(d)` with the process-wide scale `dp` passed explicitly:
on success the returned scale is `newDecimal d`; on panic the assignments
to `DP`/`DPf` are never reached, so the old scale is returned with the
error. -/
def SetDecimal (d : Int) (dp : Int) : Int × Option Err :=
  match newDecimal d with
  | .ok dec => (dec, none)
  | .error e => (dp, some e)

/-- The fields of a currency-directory record read by this package. -/
structure CurrencyRec where
  DecimalDigits : Int
  Symbol : String

/-- The fields of a locale-directory record read by this package. -/
structure LocaleRec where
  CurrencyCode : String
  CurrencyDecimalDigits : Int
  CurrencyGroupSizes : List Int
  CurrencyGroupSeparator : String
  CurrencyDecimalSeparator : String
  CurrencyPositivePattern : String
  CurrencyNegativePattern : String

/-- `SetDecimalByCurrency(cur)`: the external directory is abstracted as
`get`; when the lookup returns `nil` nothing at all happens. -/
def SetDecimalByCurrency (get : String → Option CurrencyRec) (cur : String)
    (dp : Int) : Int × Option Err :=
  match get cur with
  | some c =>
      match newDecimal c.DecimalDigits with
      | .ok dec => (dec, none)
      | .error e => (dp, some e)
  | none => (dp, none)

/-- `SetDecimalByLocale(lce)`: as `SetDecimalByCurrency`, keyed on the
locale directory. -/
def SetDecimalByLocale (get : String → Option LocaleRec) (lce : String)
    (dp : Int) : Int × Option Err :=
  match get lce with
  | some l =>
      match newDecimal l.CurrencyDecimalDigits with
      | .ok dec => (dec, none)
      | .error e => (dp, some e)
  | none => (dp, none)

/-- The constant `Round = .5` (exactly representable in `float64`). -/
def Round : ℚ := 1 / 2

/-- The constant `Roundn = Round * -1`. -/
def Roundn : ℚ := Round * -1

/-- `Rnd(r, trunc)`: the rounding step shared by `Div`, `Mulf` and `Setf`.
The `float64` comparisons against `±0.5` are modelled exactly over `ℚ`
(both bounds are exactly representable in `float64`, so the comparison
outcome agrees with the `float64` one whenever `trunc` is fed exactly). -/
def Rnd (r : Int) (trunc : ℚ) : Int :=
  if trunc > 0 then
    if trunc ≥ Round then r + 1 else r
  else
    if trunc < Roundn then r - 1 else r

/-- Go `int64(f)` conversion: truncation toward zero. -/
def truncQ (q : ℚ) : Int := if 0 ≤ q then ⌊q⌋ else ⌈q⌉

/-- The constant `Guardf = 100`. -/
def Guardf : ℚ := 100

/-- `Div`: `f := Guardf * DPf * float64(m.M) / float64(n.M) / Guardf`,
truncate to `i`, round with `Rnd(i, f-i)`, store via `Set` (which keeps the
currency).  `float64` arithmetic is modelled exactly over `ℚ`; theorems
below use it only at inputs where every `float64` intermediate is exact. -/
def Money.Div (m n : Money) (dpf : ℚ) : Money :=
  let f : ℚ := Guardf * dpf * (m.M : ℚ) / (n.M : ℚ) / Guardf
  let i : Int := truncQ f
  { M := Rnd i (f - (i : ℚ)), C := m.C }

/-- `Setf(f)`: `fDPf := f * DPf`, truncate to `r`, store `Rnd(r, fDPf - r)`
(keeping the currency).  The `float64` product is modelled exactly over
`ℚ`; the concrete theorem below notes where this is faithful. -/
def Money.Setf (m : Money) (f : ℚ) (dpf : ℚ) : Money :=
  let fDPf := f * dpf
  let r : Int := truncQ fDPf
  { M := Rnd r (fDPf - (r : ℚ)), C := m.C }

/-- The `float64` nearest to `-1.235`, namely `-5561945539802563 / 2^52`
(numerator below `2^53`, hence exactly a `float64`). -/
def dNeg1235 : ℚ := -(5561945539802563 : ℚ) / 2 ^ 52

/-- C1 counterexample: the claim's rule decrements `r` when the remainder
is exactly `-0.5`, but `Rnd` compares the negative side strictly
(`trunc < Roundn`), so `Rnd 0 (-1/2) = 0`, not `-1`. -/
theorem c1_rnd_counterexample :
    Rnd 0 (-(1 : ℚ) / 2) = 0 ∧ Rnd 0 (-(1 : ℚ) / 2) ≠ -1 := by
  have h : Rnd 0 (-(1 : ℚ) / 2) = 0 := by
    simp only [Rnd, Roundn, Round]
    rw [if_neg (by norm_num), if_neg (by norm_num)]
  exact ⟨h, by rw [h]; decide⟩

/-- C1 amended: the rule increments when `trunc ≥ +0.5` and decrements only
when `trunc < -0.5` strictly, leaving `r` unchanged at exactly `-0.5`; the
asymmetry is reachable through `Div` (`1/200` rounds to `1` while `-1/200`
rounds to `0` at scale 100, all `float64` intermediates being exact there);
`ImportFloat(-1.235)` nevertheless stores `-124` because the `float64`
input is below `-1.235`'s half-way point: here the exact product is
`-123.50000000000000977…` and the `float64` product is
`-123.50000000000001421…`, both strictly below `-123.5`, so the exact-`ℚ`
model and the `float64` computation make the same rounding decision. -/
theorem c1_rnd_amended :
    (∀ (r : Int) (t : ℚ),
        Rnd r t = if Round ≤ t then r + 1 else if t < Roundn then r - 1 else r)
    ∧ Money.Div ⟨1, "USD"⟩ ⟨200, "USD"⟩ 100 = ⟨1, "USD"⟩
    ∧ Money.Div ⟨-1, "USD"⟩ ⟨200, "USD"⟩ 100 = ⟨0, "USD"⟩
    ∧ Money.Setf ⟨0, "USD"⟩ dNeg1235 100 = ⟨-124, "USD"⟩ := by
  refine ⟨fun r t => ?_, ?_, ?_, ?_⟩
  · simp only [Rnd, Roundn, Round]
    split_ifs <;> first | rfl | linarith
  · have hf : Guardf * 100 * ((1 : Int) : ℚ) / ((200 : Int) : ℚ) / Guardf
        = 1 / 2 := by
      norm_num [Guardf]
    have hi : truncQ (1 / 2 : ℚ) = 0 := by
      rw [truncQ, if_pos (by norm_num), Int.floor_eq_iff]
      norm_num
    simp only [Money.Div, hf, hi]
    simp only [Rnd, Roundn, Round]
    norm_num
  · have hf : Guardf * 100 * ((-1 : Int) : ℚ) / ((200 : Int) : ℚ) / Guardf
        = -(1 / 2) := by
      norm_num [Guardf]
    have hi : truncQ (-(1 / 2) : ℚ) = 0 := by
      rw [truncQ, if_neg (by norm_num), Int.ceil_eq_iff]
      norm_num
    simp only [Money.Div, hf, hi]
    simp only [Rnd, Roundn, Round]
    norm_num
  · have hf : dNeg1235 * 100 = -(556194553980256300 : ℚ) / 2 ^ 52 := by
      rw [dNeg1235]
      ring
    have hi : truncQ (-(556194553980256300 : ℚ) / 2 ^ 52) = -123 := by
      rw [truncQ, if_neg (by norm_num), Int.ceil_eq_iff]
      norm_num
    simp only [Money.Setf, hf, hi]
    simp only [Rnd, Roundn, Round]
    norm_num

/-- C2 counterexample: `SetDecimal 0` sets the process-wide scale to `0`,
not to `10^0 = 1` (the `newDecimal` loop only starts from `1` when the
exponent is strictly positive). -/
theorem c2_scale_counterexample :
    SetDecimal 0 100 = (0, none) ∧ (0 : Int) ≠ 10 ^ (0 : Nat) := by
  constructor
  · decide
  · decide

/-- C2 amended: for every exponent `d` with `1 ≤ d ≤ 18` the setter stores
exactly `10^d`; exponent `0` instead stores the sentinel `0`. -/
theorem c2_scale_amended (d dp : Int) (h1 : 1 ≤ d) (h2 : d ≤ 18) :
    SetDecimal d dp = (10 ^ d.toNat, none) := by
  unfold SetDecimal newDecimal MAXDEC
  rw [if_neg (by omega), if_neg (by omega), if_pos (by omega)]

/-- Witness for `c2_scale_amended` at `d = 2`. -/
theorem c2_scale_amended_witness : SetDecimal 2 7 = (100, none) :=
  c2_scale_amended 2 7 (by decide) (by decide)

/-- C3: a negative exponent fails with the error the spec calls
`InvalidScaleError` (in the source this is the value `ErrMoneyDivideByZero`)
and an exponent above 18 fails with `ErrMoneyDecimalPlacesTooLarge`
(the spec's `ScaleTooLargeError`); in both cases the panic precedes the
assignment to `DP`/`DPf`, so the previously configured scale `dp` is
returned unchanged. -/
theorem c3_scale_errors (d dp : Int) :
    (d < 0 → SetDecimal d dp = (dp, some Err.moneyDivideByZero))
    ∧ (18 < d → SetDecimal d dp = (dp, some Err.moneyDecimalPlacesTooLarge)) := by
  constructor
  · intro h
    unfold SetDecimal newDecimal
    rw [if_pos h]
  · intro h
    unfold SetDecimal newDecimal MAXDEC
    rw [if_neg (by omega), if_pos (by omega)]

/-- Witness for `c3_scale_errors`: `SetDecimal (-1)` and `SetDecimal 19`
both fail and keep the old scale `100`. -/
theorem c3_scale_errors_witness :
    SetDecimal (-1) 100 = (100, some Err.moneyDivideByZero)
    ∧ SetDecimal 19 100 = (100, some Err.moneyDecimalPlacesTooLarge) :=
  ⟨(c3_scale_errors (-1) 100).1 (by decide), (c3_scale_errors 19 100).2 (by decide)⟩

/-- C10: when the currency (resp. locale) directory does not contain the
requested key, the lookup returns `nil`, the body of the `if` is skipped,
and the setter returns with the process-wide scale unchanged and no
error. -/
theorem c10_lookup_miss (getC : String → Option CurrencyRec)
    (getL : String → Option LocaleRec) (cur lce : String) (dp : Int)
    (hc : getC cur = none) (hl : getL lce = none) :
    SetDecimalByCurrency getC cur dp = (dp, none)
    ∧ SetDecimalByLocale getL lce dp = (dp, none) := by
  constructor
  · unfold SetDecimalByCurrency
    rw [hc]
  · unfold SetDecimalByLocale
    rw [hl]

/-- Witness for `c10_lookup_miss` with empty directories. -/
theorem c10_lookup_miss_witness :
    SetDecimalByCurrency (fun _ => none) "ZZZ" 100 = (100, none)
    ∧ SetDecimalByLocale (fun _ => none) "zz-ZZ" 100 = (100, none) :=
  c10_lookup_miss (fun _ => none) (fun _ => none) "ZZZ" "zz-ZZ" 100 rfl rfl

/-- Zero padding of a numeral to width `w` (Go `fmt` zero-pad for an
unsigned numeral). -/
def padZero (w : Nat) (s : String) : String :=
  if s.length < w then String.mk (List.replicate (w - s.length) '0') ++ s else s

/-- Go `fmt.Sprintf` verb `%0wd` for an `int64` (`w = 0` gives plain `%d`):
the zeros are inserted between the sign and the digits, and the minimum
width `w` counts the sign. -/
def goInt (w : Nat) (x : Int) : String :=
  if x < 0 then "-" ++ padZero (w - 1) (Nat.repr (-x).toNat)
  else padZero w (Nat.repr x.toNat)

/-- `Neg()`: flips the sign of a nonzero amount; `m.M *= -1` is `int64`
multiplication, which wraps at the smallest `int64`. -/
def Money.Neg (m : Money) : Money :=
  if m.M ≠ 0 then { M := wrap64 (m.M * -1), C := m.C } else m

/-- `Abs()`: negates the receiver in place when it is negative. -/
def Money.Abs (m : Money) : Money :=
  if m.M < 0 then m.Neg else m

/-- `Sign()`: `-1` for a negative amount, `1` otherwise (zero counts as
positive). -/
def Money.Sign (m : Money) : Int :=
  if m.M < 0 then -1 else 1

/-- `Value()`: the raw scaled amount. -/
def Money.Value (m : Money) : Int := m.M

/-- `String()` with the process-wide scale passed explicitly as `dp`.  It
returns the rendered string together with the receiver's final state: the
negative branch evaluates `m.Abs()` (which mutates the receiver in place)
once per format argument, left to right. -/
def Money.StringRun (dp : Int) (m : Money) : String × Money :=
  if m.Sign > 0 then
    (goInt 0 (m.Value.tdiv dp) ++ "." ++ goInt 2 (m.Value.tmod dp) ++ " " ++ m.C, m)
  else
    let m1 := m.Abs
    let m2 := m1.Abs
    ("-" ++ goInt 0 (m1.Value.tdiv dp) ++ "." ++ goInt 2 (m2.Value.tmod dp)
      ++ " " ++ m.C, m2)

/-- `int64(math.Pow10(e))`: exact for `0 ≤ e ≤ 18`; a negative exponent
gives a fraction below one, truncated to `0` by the conversion.  (For
`e ≥ 19` the `float64` power is no longer exact; the theorems below stay
inside `[0, 18]`.) -/
def pow10i (e : Int) : Int := if 0 ≤ e then 10 ^ e.toNat else 0

/-- First element of the locale's group-size list; `3` when the list is
empty. -/
def groupSizeOf (sizes : List Int) : Int :=
  match sizes with
  | [] => 3
  | s :: _ => s

/-- Replacement of every occurrence of a pattern in `s`, for the
single-character patterns `Format` uses (`"$"` and `"n"`, count `-1`). -/
def replaceChar (c : Char) (rep : String) (s : String) : String :=
  String.join (s.data.map fun ch => if ch = c then rep else String.singleton ch)

/-- Splitting one step (`SplitN(s, c, 2)`): `none` when `c` does not occur
in the list, otherwise the parts before and after its first occurrence. -/
def splitFirst (c : Char) : List Char → Option (List Char × List Char)
  | [] => none
  | ch :: rest =>
    if ch = c then some ([], rest)
    else
      match splitFirst c rest with
      | some p => some (ch :: p.1, p.2)
      | none => none

/-- The grouping loop of `Format` (a do-while over `wholeVal /= groupDp`),
with explicit fuel: 64 iterations suffice for every `int64` whole value as
soon as `groupDp ≥ 2`, because the magnitude at least halves each round;
for `groupDp ≤ 1` the Go loop itself never terminates (or panics on a zero
divisor), a region the theorems exclude through their well-formedness
bounds on the locale record. -/
def groupLoop : Nat → Int → Int → Int → List String
  | 0, _, _, _ => []
  | fuel + 1, wholeVal, groupDp, groupSize =>
    let group := wholeVal.tmod groupDp
    let s := if wholeVal < groupDp then goInt 0 group else goInt groupSize.toNat group
    let rest := wholeVal.tdiv groupDp
    if rest = 0 then [s] else s :: groupLoop fuel rest groupDp groupSize

/-- The writer loop over `groups`: emits `groups[len-1-i]` for `i = 0, …`,
with the group separator before every element but the first. -/
def joinRev (sep : String) (groups : List String) : String :=
  match groups.reverse with
  | [] => ""
  | g :: rest => g ++ String.join (rest.map fun x => sep ++ x)

/-- The combined formatted numeral `Format` builds before the pattern
substitution: absolute value split at `10^decimal_digits`, unformatted
numeral, grouped whole part, locale decimal separator, and the fractional
part taken from the unformatted numeral (everything after its first dot). -/
def formattedNumber (l : LocaleRec) (m : Money) : String :=
  let dp := pow10i l.CurrencyDecimalDigits
  let groupSize := groupSizeOf l.CurrencyGroupSizes
  let groupDp := pow10i groupSize
  let absVal := if m.Sign < 0 then wrap64 (-m.Value) else m.Value
  let wholeVal := absVal.tdiv dp
  let decVal := absVal.tmod dp
  let unformatted :=
    if l.CurrencyDecimalDigits > 0 then
      goInt 0 wholeVal ++ "." ++ goInt l.CurrencyDecimalDigits.toNat decVal
    else goInt 0 wholeVal
  let wholeStr := joinRev l.CurrencyGroupSeparator
    (groupLoop 64 wholeVal groupDp groupSize)
  match splitFirst '.' unformatted.data with
  | some p => wholeStr ++ l.CurrencyDecimalSeparator ++ String.mk p.2
  | none => wholeStr

/-- `Format(loc)` on the path where the locale record was found, with the
currency symbol already resolved (symbol resolution is a directory lookup
outside this package).  The sign picks the pattern, then `"$"` and `"n"`
are replaced in sequence, each across the whole current string. -/
def Money.Format (l : LocaleRec) (currencySymbol : String) (m : Money) : String :=
  let pattern :=
    if m.Sign > 0 then l.CurrencyPositivePattern else l.CurrencyNegativePattern
  let output := replaceChar '$' currencySymbol pattern
  replaceChar 'n' (formattedNumber l m) output

/-- The locale record of the formatting examples: group sizes `[3]`,
separators `","` and `"."`, patterns `"$n"` and `"-$n"`, two decimal
digits. -/
def exLocale : LocaleRec :=
  { CurrencyCode := "USD"
    CurrencyDecimalDigits := 2
    CurrencyGroupSizes := [3]
    CurrencyGroupSeparator := ","
    CurrencyDecimalSeparator := "."
    CurrencyPositivePattern := "$n"
    CurrencyNegativePattern := "-$n" }

/-- C7: under the example locale with symbol `"$"`, scaled amount
`123456789` renders as `"$1,234,567.89"` and `-123456789` as
`"-$1,234,567.89"`. -/
theorem c7_format_example :
    Money.Format exLocale "$" ⟨123456789, "USD"⟩ = "$1,234,567.89"
    ∧ Money.Format exLocale "$" ⟨-123456789, "USD"⟩ = "-$1,234,567.89" := by
  constructor
  · decide
  · decide

/-- C8 counterexample: the `"n"` substitution runs over the output of the
`"$"` substitution, so an `n` inside the resolved symbol is replaced by the
formatted number as well — with symbol `"kn"` and pattern `"$n"`, amount
`0` renders as `"k0.000.00"`, not `"kn0.00"` as marker-only substitution
would give. -/
theorem c8_subst_counterexample :
    Money.Format exLocale "kn" ⟨0, "HRK"⟩ = "k0.000.00"
    ∧ Money.Format exLocale "kn" ⟨0, "HRK"⟩ ≠ "kn0.00" := by
  constructor
  · decide
  · decide

/-- C8 amended: for every locale record within the well-formed region
(decimal digits in `[0, 18]`, leading group size in `[1, 18]`, amount an
`int64`), the formatter picks the positive pattern for nonnegative amounts
(zero included) and the negative pattern for negative amounts, and returns
that pattern with every `"$"` replaced by the symbol and then every `"n"`
of the resulting string — including any `n` the symbol introduced —
replaced by the combined formatted number. -/
theorem c8_pattern_substitution (l : LocaleRec) (sym : String) (m : Money)
    (_h1 : 0 ≤ l.CurrencyDecimalDigits) (_h2 : l.CurrencyDecimalDigits ≤ 18)
    (_h3 : 1 ≤ groupSizeOf l.CurrencyGroupSizes)
    (_h4 : groupSizeOf l.CurrencyGroupSizes ≤ 18)
    (_h5 : inRange m.M) :
    Money.Format l sym m
      = replaceChar 'n' (formattedNumber l m)
          (replaceChar '$' sym
            (if 0 ≤ m.M then l.CurrencyPositivePattern
             else l.CurrencyNegativePattern)) := by
  rcases lt_or_le m.M 0 with h | h
  · simp [Money.Format, Money.Sign, h, not_le.mpr h]
  · simp [Money.Format, Money.Sign, not_lt.mpr h, h]

/-- Witness for `c8_pattern_substitution` at the example locale. -/
theorem c8_pattern_substitution_witness :
    Money.Format exLocale "$" ⟨123456789, "USD"⟩
      = replaceChar 'n' (formattedNumber exLocale ⟨123456789, "USD"⟩)
          (replaceChar '$' "$" exLocale.CurrencyPositivePattern) := by
  have h := c8_pattern_substitution exLocale "$" ⟨123456789, "USD"⟩
    (by decide) (by decide) (by decide) (by decide) (by decide)
  simpa using h

/-- `wrap64` is the identity on representable values. -/
theorem wrap64_eq_of_inRange (x : Int) (h : inRange x) : wrap64 x = x := by
  unfold wrap64 two64 two63
  unfold inRange two63 at h
  omega

/-- `Abs()` on a negative receiver above `-2^63` stores the exact negation. -/
theorem abs_of_neg (m : Money) (hm : m.M < 0) (h : -two63 < m.M) :
    m.Abs = { M := -m.M, C := m.C } := by
  have hx : wrap64 (-m.M) = -m.M := by
    apply wrap64_eq_of_inRange
    unfold inRange two63 at *
    omega
  have hw : wrap64 (m.M * -1) = -m.M := by
    simpa [mul_comm] using hx
  simp [Money.Abs, Money.Neg, hm, show m.M ≠ 0 by omega, hw, hx]

/-- `Abs()` on a nonnegative receiver is the identity. -/
theorem abs_of_nonneg (m : Money) (hm : 0 ≤ m.M) : m.Abs = m := by
  simp [Money.Abs, not_lt.mpr hm]

/-- C4 counterexample: with the process-wide scale set to 4 decimal places
(`dp = 10000`), the unlocalized display of scaled amount `15000` is
`"1.5000 XXX"`, not `"1.50 XXX"` — the fractional width follows the active
scale rather than being fixed at two digits. -/
theorem c4_string_counterexample :
    (Money.StringRun 10000 ⟨15000, "XXX"⟩).1 = "1.5000 XXX"
    ∧ "1.5000 XXX" ≠ "1.50 XXX" := by
  constructor
  · decide
  · decide

/-- C4 amended: the unlocalized display renders
`{|M| / dp}.{|M| mod dp zero-padded to at least two digits} {code}` under
the active scale `dp` — so the fractional width is at least two digits but
otherwise follows the scale — with `-` prepended for negative amounts
(whose receiver is first replaced by its absolute value; `M > -2^63` keeps
that negation exact). -/
theorem c4_string_amended (dp : Int) (m : Money) (h : -two63 < m.M) :
    (0 ≤ m.M →
      (Money.StringRun dp m).1
        = goInt 0 (m.M.tdiv dp) ++ "." ++ goInt 2 (m.M.tmod dp) ++ " " ++ m.C)
    ∧ (m.M < 0 →
      (Money.StringRun dp m).1
        = "-" ++ goInt 0 ((-m.M).tdiv dp) ++ "." ++ goInt 2 ((-m.M).tmod dp)
          ++ " " ++ m.C) := by
  constructor
  · intro hm
    simp [Money.StringRun, Money.Sign, Money.Value, not_lt.mpr hm]
  · intro hm
    have habs : m.Abs = { M := -m.M, C := m.C } := abs_of_neg m hm h
    have habs2 : ({ M := -m.M, C := m.C } : Money).Abs = { M := -m.M, C := m.C } :=
      abs_of_nonneg _ (by simpa using le_of_lt (neg_pos.mpr hm))
    simp [Money.StringRun, Money.Sign, Money.Value, hm, habs, habs2]

/-- Witness for `c4_string_amended` at scale 100 with amounts `±15`. -/
theorem c4_string_amended_witness :
    (Money.StringRun 100 ⟨15, "USD"⟩).1 = "0.15 USD"
    ∧ (Money.StringRun 100 ⟨-15, "USD"⟩).1 = "-0.15 USD" := by
  have h1 := (c4_string_amended 100 ⟨15, "USD"⟩ (by decide)).1 (by decide)
  have h2 := (c4_string_amended 100 ⟨-15, "USD"⟩ (by decide)).2 (by decide)
  exact ⟨h1.trans (by decide), h2.trans (by decide)⟩

/-- C9 counterexample: for the one negative amount whose absolute value is
not an `int64`, `-2^63`, the in-place negation wraps and the receiver
still holds `-2^63` after `String()` — not the absolute value `2^63`. -/
theorem c9_string_counterexample :
    (Money.StringRun 100 ⟨-two63, "USD"⟩).2.M = -two63
    ∧ -two63 ≠ two63 := by
  constructor
  · decide
  · decide

/-- C9 amended: for every amount above `-2^63`, `String()` leaves the
receiver at the absolute value of its original scaled amount — so a
negative receiver is mutated to `-M` (the rendered text being built from
that mutated state), while a nonnegative receiver is unchanged; at exactly
`-2^63` the negation wraps and the receiver is unchanged though negative. -/
theorem c9_string_mutates_receiver (dp : Int) (m : Money) (h : -two63 < m.M) :
    (Money.StringRun dp m).2 = { M := if m.M < 0 then -m.M else m.M, C := m.C } := by
  rcases lt_or_le m.M 0 with hm | hm
  · have habs : m.Abs = { M := -m.M, C := m.C } := abs_of_neg m hm h
    have habs2 : ({ M := -m.M, C := m.C } : Money).Abs = { M := -m.M, C := m.C } :=
      abs_of_nonneg _ (by simpa using le_of_lt (neg_pos.mpr hm))
    simp [Money.StringRun, Money.Sign, hm, habs, habs2]
  · simp [Money.StringRun, Money.Sign, not_lt.mpr hm]

/-- Witness for `c9_string_mutates_receiver`: displaying `-5` cents leaves
the receiver at `+5`. -/
theorem c9_string_mutates_receiver_witness :
    (Money.StringRun 100 ⟨-5, "USD"⟩).2 = ⟨5, "USD"⟩ := by
  have h := c9_string_mutates_receiver 100 ⟨-5, "USD"⟩ (by decide)
  simpa using h

/-- `Add(n)`: wrapped `int64` sum, then the sign-mismatch overflow test
`(r^m.M)&(r^n.M) < 0` on the two's-complement bit patterns (the `< 0` of
the test is bit 63 of the combined pattern); on overflow the panic fires
before `m.M = r`, so the receiver is handed back unchanged next to the
error. -/
def Money.Add (m n : Money) : Money × Option Err :=
  let r := wrap64 (m.M + n.M)
  if ((toBits r ^^^ toBits m.M) &&& (toBits r ^^^ toBits n.M)).testBit 63
  then (m, some .moneyOverflow)
  else ({ M := r, C := m.C }, none)

/-- `Sub(n)`: wrapped `int64` difference with the test
`(r^m.M)&^(r^n.M) < 0` (`&^` is and-not). -/
def Money.Sub (m n : Money) : Money × Option Err :=
  let r := wrap64 (m.M - n.M)
  if ((toBits r ^^^ toBits m.M) &&& not64 (toBits r ^^^ toBits n.M)).testBit 63
  then (m, some .moneyOverflow)
  else ({ M := r, C := m.C }, none)

/-- `wrap64` always lands in the `int64` range. -/
theorem wrap64_inRange (x : Int) : inRange (wrap64 x) := by
  unfold inRange wrap64 two63 two64
  omega

/-- Bit 63 of the stored 64-bit pattern of a representable value is its
sign. -/
theorem testBit63_toBits (x : Int) (h : inRange x) :
    (toBits x).testBit 63 = decide (x < 0) := by
  rw [Nat.testBit_to_div_mod, decide_eq_decide]
  have h63 : (2 : Nat) ^ 63 = 9223372036854775808 := by norm_num
  rw [h63]
  unfold toBits two64
  unfold inRange two63 at h
  omega

/-- Bit 63 of the 64-bit complement is the complement of bit 63. -/
theorem testBit63_not64 (u : Nat) :
    (not64 u).testBit 63 = !(u.testBit 63) := by
  unfold not64
  rw [Nat.testBit_xor]
  have hm : (18446744073709551615 : Nat).testBit 63 = true := by decide
  rw [hm]
  cases u.testBit 63 <;> rfl

/-- The sign-mismatch test of `Add` fires exactly when the exact sum
leaves the `int64` range. -/
theorem add_test_iff (a b : Int) (ha : inRange a) (hb : inRange b) :
    (((toBits (wrap64 (a + b)) ^^^ toBits a) &&&
      (toBits (wrap64 (a + b)) ^^^ toBits b)).testBit 63 = true)
    ↔ ¬ inRange (a + b) := by
  rw [Nat.testBit_land, Nat.testBit_xor, Nat.testBit_xor,
    testBit63_toBits _ (wrap64_inRange (a + b)), testBit63_toBits _ ha,
    testBit63_toBits _ hb]
  simp only [Bool.and_eq_true, bne_iff_ne, ne_eq, decide_eq_decide]
  unfold inRange wrap64 two63 two64 at *
  omega

/-- The and-not sign test of `Sub` fires exactly when the exact difference
leaves the `int64` range. -/
theorem sub_test_iff (a b : Int) (ha : inRange a) (hb : inRange b) :
    (((toBits (wrap64 (a - b)) ^^^ toBits a) &&&
      not64 (toBits (wrap64 (a - b)) ^^^ toBits b)).testBit 63 = true)
    ↔ ¬ inRange (a - b) := by
  rw [Nat.testBit_land, testBit63_not64, Nat.testBit_xor, Nat.testBit_xor,
    testBit63_toBits _ (wrap64_inRange (a - b)), testBit63_toBits _ ha,
    testBit63_toBits _ hb]
  simp only [Bool.and_eq_true, Bool.not_eq_true', bne_iff_ne, ne_eq,
    bne_eq_false_iff_eq, decide_eq_decide]
  unfold inRange wrap64 two63 two64 at *
  omega

/-- `Add` on a representable sum stores exactly the sum. -/
theorem Add_ok (m n : Money) (hm : inRange m.M) (hn : inRange n.M)
    (h : inRange (m.M + n.M)) :
    Money.Add m n = ({ M := m.M + n.M, C := m.C }, none) := by
  simp only [Money.Add]
  rw [if_neg (fun hc => ((add_test_iff m.M n.M hm hn).mp hc) h),
    wrap64_eq_of_inRange _ h]

/-- `Add` on an unrepresentable sum errors and keeps the receiver. -/
theorem Add_overflow (m n : Money) (hm : inRange m.M) (hn : inRange n.M)
    (h : ¬ inRange (m.M + n.M)) :
    Money.Add m n = (m, some Err.moneyOverflow) := by
  simp only [Money.Add]
  rw [if_pos ((add_test_iff m.M n.M hm hn).mpr h)]

/-- `Sub` on a representable difference stores exactly the difference. -/
theorem Sub_ok (m n : Money) (hm : inRange m.M) (hn : inRange n.M)
    (h : inRange (m.M - n.M)) :
    Money.Sub m n = ({ M := m.M - n.M, C := m.C }, none) := by
  simp only [Money.Sub]
  rw [if_neg (fun hc => ((sub_test_iff m.M n.M hm hn).mp hc) h),
    wrap64_eq_of_inRange _ h]

/-- `Sub` on an unrepresentable difference errors and keeps the receiver. -/
theorem Sub_overflow (m n : Money) (hm : inRange m.M) (hn : inRange n.M)
    (h : ¬ inRange (m.M - n.M)) :
    Money.Sub m n = (m, some Err.moneyOverflow) := by
  simp only [Money.Sub]
  rw [if_pos ((sub_test_iff m.M n.M hm hn).mpr h)]

/-- C5: for representable operands, `Add` (resp. `Sub`) stores the exact
sum (resp. difference) when it fits in an `int64`, keeping the receiver's
currency; otherwise the sign-mismatch test fires, the operation fails with
`ErrMoneyOverflow`, and — the panic preceding the assignment `m.M = r` —
the receiver is handed back with its fields unchanged. -/
theorem c5_add_sub_overflow (m n : Money) (hm : inRange m.M) (hn : inRange n.M) :
    (inRange (m.M + n.M) →
      Money.Add m n = ({ M := m.M + n.M, C := m.C }, none))
    ∧ (¬ inRange (m.M + n.M) → Money.Add m n = (m, some Err.moneyOverflow))
    ∧ (inRange (m.M - n.M) →
      Money.Sub m n = ({ M := m.M - n.M, C := m.C }, none))
    ∧ (¬ inRange (m.M - n.M) → Money.Sub m n = (m, some Err.moneyOverflow)) :=
  ⟨Add_ok m n hm hn, Add_overflow m n hm hn, Sub_ok m n hm hn,
    Sub_overflow m n hm hn⟩

/-- Witness for `c5_add_sub_overflow`: `3 + 4` succeeds exactly, and
`int64-max + 1` overflows leaving the receiver unchanged. -/
theorem c5_add_sub_overflow_witness :
    Money.Add ⟨3, "USD"⟩ ⟨4, "EUR"⟩ = (⟨7, "USD"⟩, none)
    ∧ Money.Add ⟨9223372036854775807, "USD"⟩ ⟨1, "EUR"⟩
        = (⟨9223372036854775807, "USD"⟩, some Err.moneyOverflow) := by
  have h1 := (c5_add_sub_overflow ⟨3, "USD"⟩ ⟨4, "EUR"⟩
    (by decide) (by decide)).1 (by decide)
  have h2 := (c5_add_sub_overflow ⟨9223372036854775807, "USD"⟩ ⟨1, "EUR"⟩
    (by decide) (by decide)).2.1 (by decide)
  exact ⟨h1, h2⟩

/-- C6: when the difference of the scaled amounts is representable (the
re-added sum then automatically is, being the original amount), `Sub`
followed by `Add` of the same operand succeeds and restores the original
value exactly, currency included. -/
theorem c6_sub_add_roundtrip (a b : Money) (ha : inRange a.M) (hb : inRange b.M)
    (hd : inRange (a.M - b.M)) :
    (a.Sub b).2 = none
    ∧ ((a.Sub b).1.Add b).1 = a
    ∧ ((a.Sub b).1.Add b).2 = none := by
  obtain ⟨aM, aC⟩ := a
  obtain ⟨bM, bC⟩ := b
  simp only at ha hb hd
  have hsub := Sub_ok ⟨aM, aC⟩ ⟨bM, bC⟩ ha hb hd
  have hsum : inRange ((aM - bM) + bM) := by
    have hx : aM - bM + bM = aM := by ring
    rw [hx]
    exact ha
  have hadd := Add_ok ⟨aM - bM, aC⟩ ⟨bM, bC⟩ hd hb hsum
  rw [hsub]
  refine ⟨rfl, ?_, ?_⟩
  · show (Money.Add ⟨aM - bM, aC⟩ ⟨bM, bC⟩).1 = ⟨aM, aC⟩
    rw [hadd]
    show ({ M := aM - bM + bM, C := aC } : Money) = ⟨aM, aC⟩
    have hx : aM - bM + bM = aM := by ring
    rw [hx]
  · show (Money.Add ⟨aM - bM, aC⟩ ⟨bM, bC⟩).2 = none
    rw [hadd]

/-- Witness for `c6_sub_add_roundtrip` at `5 - 3 + 3`. -/
theorem c6_sub_add_roundtrip_witness :
    (Money.Sub ⟨5, "USD"⟩ ⟨3, "USD"⟩).2 = none
    ∧ ((Money.Sub ⟨5, "USD"⟩ ⟨3, "USD"⟩).1.Add ⟨3, "USD"⟩).1 = ⟨5, "USD"⟩
    ∧ ((Money.Sub ⟨5, "USD"⟩ ⟨3, "USD"⟩).1.Add ⟨3, "USD"⟩).2 = none :=
  c6_sub_add_roundtrip ⟨5, "USD"⟩ ⟨3, "USD"⟩ (by decide) (by decide) (by decide)

end I18n
